import Mathlib

/-!
# Verification of the manifest-cache scrapper pipeline

A shallow embedding of `scrapper.go` (final revision of the file; one
earlier revision is embedded under the `RevB` namespace where a claim is
about that revision's code).

Modelling conventions:

* Go maps (`map[string]ManifestObject`) are modelled as association lists
  `List (String × _)`; `dictLookup` models `m[k]`, `mapSet` models
  `m[k] = v` (replace the binding if the key is present, add it
  otherwise), `containsKey` models `_, ok := m[k]`.
* JSON values are a small AST `Json`; `encoding/json` marshalling and
  unmarshalling of the concrete struct types is modelled field by field,
  following the struct tags in the source (absent fields decode to Go
  zero values, fields of the wrong JSON type are a decode error, unknown
  fields are ignored).
* HTTP is an oracle `HttpOracle` mapping a URL to a transport error or a
  JSON body; the Redis client is an oracle `StoreOracle` giving the
  outcome of `FLUSHALL` and of `SET` per key.  A run additionally
  produces the list of cache-store operations it attempted (`CacheOp`),
  in order, so that temporal claims about the trace can be stated.
* `log.Fatalf` and `log.Panicf` abort the Go process; both are modelled
  as the run stopping with an error value at that point.
-/

/-- A small JSON value AST (no floats and no null are needed: the payloads
the program decodes only use objects, strings, integers and booleans, and
`omitempty` marshalling never emits null). -/
inductive Json where
  | str (s : String)
  | num (n : Int)
  | bool (b : Bool)
  | obj (fields : List (String × Json))

/-- Source struct `DisplayProperties` (field names follow the JSON tags). -/
structure DisplayProperties where
  description : String
  name : String
  icon : String
  hasIcon : Bool
deriving DecidableEq

/-- The Go zero value of `DisplayProperties`. -/
def zeroDisplayProperties : DisplayProperties :=
  { description := "", name := "", icon := "", hasIcon := false }

/-- Source struct `ManifestObject` (final revision: `Mode *int` with tag
`mode,omitempty`, modelled as `Option Int`; other field names follow the
JSON tags). -/
structure ManifestObject where
  mode : Option Int
  displayProperties : DisplayProperties
  originalDisplayProperties : DisplayProperties
  releaseIcon : String
  releaseTime : Int
deriving DecidableEq

/-- Source type `ManifestResponse = map[string]ManifestObject`, modelled
as an association list. -/
abbrev ManifestResponse := List (String × ManifestObject)

/-- Source struct `Manifest`, flattened to the inner
`Response.jsonWorldComponentContentPaths.en` record that the program
actually reads. -/
structure Manifest where
  DestinyActivityDefinition : String
  DestinyClassDefinition : String
  DestinyGenderDefinition : String
  DestinyRaceDefinition : String
deriving DecidableEq

/-- Decode an optional JSON field as a Go `string` (absent means the zero
value `""`, wrong type is a decode error). -/
def asString : Option Json → Option String
  | none => some ""
  | some (Json.str s) => some s
  | some _ => none

/-- Decode an optional JSON field as a Go `bool`. -/
def asBool : Option Json → Option Bool
  | none => some false
  | some (Json.bool b) => some b
  | some _ => none

/-- Decode an optional JSON field as a Go `int`. -/
def asInt : Option Json → Option Int
  | none => some 0
  | some (Json.num n) => some n
  | some _ => none

/-- Decode an optional JSON field as a Go `*int` (absent means `nil`). -/
def asOptInt : Option Json → Option (Option Int)
  | none => some none
  | some (Json.num n) => some (some n)
  | some _ => none

/-- Decode an optional JSON field as a nested Go struct's field list
(absent means the zero struct, i.e. no fields). -/
def asObj : Option Json → Option (List (String × Json))
  | none => some []
  | some (Json.obj fields) => some fields
  | some _ => none

/-- `json.Unmarshal` into `DisplayProperties`. -/
def unmarshalDisplayProperties (j : Json) : Option DisplayProperties :=
  match j with
  | Json.obj fields =>
    match asString (List.lookup "description" fields),
          asString (List.lookup "name" fields),
          asString (List.lookup "icon" fields),
          asBool (List.lookup "hasIcon" fields) with
    | some d, some n, some i, some h =>
      some { description := d, name := n, icon := i, hasIcon := h }
    | _, _, _, _ => none
  | _ => none

/-- Decode an optional JSON field as a `DisplayProperties` struct (absent
means the zero struct). -/
def asDisplayProperties : Option Json → Option DisplayProperties
  | none => some zeroDisplayProperties
  | some j => unmarshalDisplayProperties j

/-- `json.Unmarshal` into `ManifestObject`. -/
def unmarshalManifestObject (j : Json) : Option ManifestObject :=
  match j with
  | Json.obj fields =>
    match asOptInt (List.lookup "mode" fields),
          asDisplayProperties (List.lookup "displayProperties" fields),
          asDisplayProperties (List.lookup "originalDisplayProperties" fields),
          asString (List.lookup "releaseIcon" fields),
          asInt (List.lookup "releaseTime" fields) with
    | some m, some dp, some odp, some ri, some rt =>
      some { mode := m, displayProperties := dp, originalDisplayProperties := odp,
             releaseIcon := ri, releaseTime := rt }
    | _, _, _, _, _ => none
  | _ => none

/-- Decode the entries of a JSON object into the entries of a
`map[string]ManifestObject`; any entry that fails to decode fails the
whole unmarshal, exactly as `json.Unmarshal` does. -/
def decodeEntries : List (String × Json) → Option ManifestResponse
  | [] => some []
  | (k, jv) :: rest =>
    match unmarshalManifestObject jv, decodeEntries rest with
    | some v, some tail => some ((k, v) :: tail)
    | _, _ => none

/-- `json.Unmarshal` into `ManifestResponse`. -/
def unmarshalResponse : Json → Option ManifestResponse
  | Json.obj fields => decodeEntries fields
  | _ => none

/-- `json.Unmarshal` into `Manifest`, navigating
`Response.jsonWorldComponentContentPaths.en`. -/
def unmarshalManifest (j : Json) : Option Manifest :=
  match j with
  | Json.obj f0 =>
    match asObj (List.lookup "Response" f0) with
    | none => none
    | some f1 =>
      match asObj (List.lookup "jsonWorldComponentContentPaths" f1) with
      | none => none
      | some f2 =>
        match asObj (List.lookup "en" f2) with
        | none => none
        | some f3 =>
          match asString (List.lookup "DestinyActivityDefinition" f3),
                asString (List.lookup "DestinyClassDefinition" f3),
                asString (List.lookup "DestinyGenderDefinition" f3),
                asString (List.lookup "DestinyRaceDefinition" f3) with
          | some a, some c, some g, some r =>
            some { DestinyActivityDefinition := a, DestinyClassDefinition := c,
                   DestinyGenderDefinition := g, DestinyRaceDefinition := r }
          | _, _, _, _ => none
  | _ => none

/-- `json.Marshal` of `DisplayProperties`. -/
def marshalDisplayProperties (d : DisplayProperties) : Json :=
  Json.obj [("description", Json.str d.description),
            ("name", Json.str d.name),
            ("icon", Json.str d.icon),
            ("hasIcon", Json.bool d.hasIcon)]

/-- `json.Marshal` of `ManifestObject`: fields in struct order, with the
`omitempty` tag omitting a `nil` mode. -/
def marshalManifestObject (m : ManifestObject) : Json :=
  Json.obj ((match m.mode with
             | none => []
             | some n => [("mode", Json.num n)]) ++
    [("displayProperties", marshalDisplayProperties m.displayProperties),
     ("originalDisplayProperties", marshalDisplayProperties m.originalDisplayProperties),
     ("releaseIcon", Json.str m.releaseIcon),
     ("releaseTime", Json.num m.releaseTime)])

/-- Go map read `m[k]` on the association-list model. -/
def dictLookup {β : Type} (k : String) : List (String × β) → Option β
  | [] => none
  | (key, value) :: rest => if key = k then some value else dictLookup k rest

/-- Go map write `m[k] = v`: replace the binding in place if the key is
present, append it otherwise. -/
def mapSet {β : Type} : List (String × β) → String → β → List (String × β)
  | [], k, v => [(k, v)]
  | (key, value) :: rest, k, v =>
    if key = k then (k, v) :: rest else (key, value) :: mapSet rest k v

/-- The key list of a dictionary. -/
def keys {β : Type} (m : List (String × β)) : List String := m.map Prod.fst

/-- Go map membership `_, ok := m[k]`. -/
def containsKey {β : Type} (m : List (String × β)) (k : String) : Bool :=
  (dictLookup k m).isSome

/-- A well-formed dictionary: no key occurs twice (Go maps always satisfy
this). -/
abbrev NodupKeys {β : Type} (m : List (String × β)) : Prop := (keys m).Nodup

/-- The inner loop of `flattenMaps` (and of a Go map copy): write every
entry of `m` into `acc`, in order. -/
def insertAll {β : Type} (acc m : List (String × β)) : List (String × β) :=
  m.foldl (fun a kv => mapSet a kv.1 kv.2) acc

/-- Source constant `baseUrl` (final revision). -/
def baseUrl : String := "https://www.bungie.net/Platform/"

/-- Source constant `manifestPath` (final revision). -/
def manifestPath : String := "Destiny2/Manifest"

/-- The URL `main` builds for an entity sub-resource:
`baseUrl + manifest.Response.JSONWorldComponentContentPaths.En.X`. -/
def entityUrl (subPath : String) : String := baseUrl ++ subPath

/-- The HTTP side: `http.Get` followed by `io.ReadAll`, as an oracle from
a URL to a transport error or the decoded JSON body. -/
structure HttpOracle where
  get : String → Except String Json

/-- The Redis client side, as an oracle: the outcome of `FLUSHALL`
(`some msg` is a failure) and the outcome of `SET` per key. -/
structure StoreOracle where
  flushResult : Option String
  setError : String → Option String

/-- One operation attempted against the cache store, with the value type
the code hands to `SET` (a struct in the final revision, a JSON payload
in revision B). -/
inductive CacheOp (α : Type) where
  | flushAll
  | set (key : String) (value : α)
deriving DecidableEq

/-- The ways the modelled run can stop early. -/
inductive RunError where
  | flushFailed (msg : String)
  | fatal (msg : String)
  | setFailed (key : String) (value : ManifestObject)
deriving DecidableEq

/-- Source `fetchManifest`: one GET against the manifest endpoint, then
`json.Unmarshal` into `Manifest` (a failure of either is fatal). -/
def fetchManifest (h : HttpOracle) : Except String Manifest :=
  match h.get (baseUrl ++ manifestPath) with
  | Except.error e => Except.error ("Failed to call the Bnet manifest: " ++ e)
  | Except.ok body =>
    match unmarshalManifest body with
    | none => Except.error "Failed to unmarshal JSON while fetching manifest"
    | some m => Except.ok m

/-- Source `fetchManifestEntities` (final revision): one GET, then
`json.Unmarshal` into `ManifestResponse`; the decoded map is returned
as-is, with no filtering. -/
def fetchManifestEntities (h : HttpOracle) (url : String) : Except String ManifestResponse :=
  match h.get url with
  | Except.error e => Except.error ("failed to make request: " ++ e)
  | Except.ok body =>
    match unmarshalResponse body with
    | none => Except.error "failed to unmarshal JSON"
    | some m => Except.ok m

/-- Source `filterActivities` (final revision): copy into a fresh map the
entries whose mode is non-nil and equal to 3, skipping the rest. -/
def filterActivities (manifestResponse : ManifestResponse) : ManifestResponse :=
  manifestResponse.foldl
    (fun acc kv =>
      if kv.2.mode = none ∨ kv.2.mode ≠ some 3 then acc
      else mapSet acc kv.1 kv.2)
    []

/-- Source `flattenMaps`: fold every dictionary's entries into one fresh
map, later entries overwriting earlier ones on key collision. -/
def flattenMaps (responses : List ManifestResponse) : ManifestResponse :=
  responses.foldl insertAll []

/-- Source `clearCache`: `FLUSHALL`, wrapping a failure in an error
message. -/
def clearCache (s : StoreOracle) : Option String :=
  match s.flushResult with
  | some e => some ("Failed to flush the Redis cache: " ++ e)
  | none => none

/-- Source `saveToRedis` (final revision): iterate the dictionary and
`SET` each entry, then check `if err := client.Set(...); err != nil` —
but that `err` is the `*redis.StatusCmd` returned by `client.Set`, which
is never nil, so the condition is always true: for a nonempty dictionary
the first iteration issues its `SET` and then `log.Panicf` aborts the
run with a message naming that key and value, whatever the store did
(the `return fmt.Errorf` after the panic is unreachable, and the store's
own outcome for the `SET` is never consulted).  The client handle is
taken as in the source but, like the real `err`, carries no error
information the loop reacts to.  Returns the trace of attempted
operations together with the abort, if any. -/
def saveToRedis (_s : StoreOracle) : ManifestResponse → List (CacheOp ManifestObject) × Option RunError
  | [] => ([], none)
  | (key, value) :: _ =>
    ([CacheOp.set key value], some (RunError.setFailed key value))

namespace RevB

/-- Source `saveToRedis` of revision B (src lines 265-279):
`json.Marshal` each value, then `SET` the JSON payload, discarding the
result of `SET` entirely; the only error return is for a marshal failure
(which cannot happen for `ManifestObject`, so the branch is dead), and
the function otherwise reports success.  The store oracle is taken (the
client is passed in the source) but its `SET` outcome is never
consulted. -/
def saveToRedis (s : StoreOracle) : ManifestResponse → List (CacheOp Json) × Option String
  | [] => ([], none)
  | (key, value) :: rest =>
    let jsonValue := marshalManifestObject value
    let r := saveToRedis s rest
    (CacheOp.set key jsonValue :: r.1, r.2)

end RevB

/-- The fetch-and-merge part of `main` (final revision): fetch the
manifest, fetch the four entity dictionaries, filter the activity
dictionary, and flatten race, class, gender, the unfiltered activity
dictionary and the filtered activities, in that order.  Every fetch
failure is a `log.Fatalf`, i.e. it aborts the run. -/
def pipelineData (h : HttpOracle) : Except RunError ManifestResponse :=
  match fetchManifest h with
  | Except.error e => Except.error (RunError.fatal e)
  | Except.ok manifest =>
    match fetchManifestEntities h (entityUrl manifest.DestinyRaceDefinition) with
    | Except.error _ => Except.error (RunError.fatal "Error fetching race entities")
    | Except.ok raceInfo =>
      match fetchManifestEntities h (entityUrl manifest.DestinyClassDefinition) with
      | Except.error _ => Except.error (RunError.fatal "Error fetching class entities")
      | Except.ok classInfo =>
        match fetchManifestEntities h (entityUrl manifest.DestinyGenderDefinition) with
        | Except.error _ => Except.error (RunError.fatal "Error fetching gender entities")
        | Except.ok genderInfo =>
          match fetchManifestEntities h (entityUrl manifest.DestinyActivityDefinition) with
          | Except.error _ => Except.error (RunError.fatal "Error fetching activity entities")
          | Except.ok activityInfo =>
            Except.ok (flattenMaps [raceInfo, classInfo, genderInfo, activityInfo,
              filterActivities activityInfo])

/-- Source `main` (final revision): clear the cache first (a flush
failure stops the run before anything else happens), then fetch and
merge, then save.  The result pairs the trace of attempted cache-store
operations with the abort, if any. -/
def runMain (h : HttpOracle) (s : StoreOracle) : List (CacheOp ManifestObject) × Option RunError :=
  match clearCache s with
  | some e => ([CacheOp.flushAll], some (RunError.flushFailed e))
  | none =>
    match pipelineData h with
    | Except.error e => ([CacheOp.flushAll], some e)
    | Except.ok data =>
      let r := saveToRedis s data
      (CacheOp.flushAll :: r.1, r.2)

/-- The effect of one attempted cache operation on the store contents:
a failed operation leaves the store unchanged. -/
def applyOp (s : StoreOracle) (st : ManifestResponse) : CacheOp ManifestObject → ManifestResponse
  | CacheOp.flushAll => if s.flushResult = none then [] else st
  | CacheOp.set k v => if s.setError k = none then mapSet st k v else st

/-- The store contents after a trace of attempted operations. -/
def applyTrace (s : StoreOracle) (st : ManifestResponse)
    (ops : List (CacheOp ManifestObject)) : ManifestResponse :=
  ops.foldl (applyOp s) st

/-- The entries `filterActivities` keeps: mode is non-nil and equal to 3. -/
def modeIsTarget (kv : String × ManifestObject) : Bool := decide (kv.2.mode = some 3)

/-! ## Concrete inputs used by witnesses and counterexamples -/

/-- An entity record whose mode is nil (the decode of the JSON object
with no fields). -/
def recNoMode : ManifestObject :=
  { mode := none, displayProperties := zeroDisplayProperties,
    originalDisplayProperties := zeroDisplayProperties, releaseIcon := "", releaseTime := 0 }

/-- An entity record with mode 3 (the filter's target). -/
def rec3 : ManifestObject := { recNoMode with mode := some 3 }

/-- An entity record with mode 7 (present but off-target). -/
def rec7 : ManifestObject := { recNoMode with mode := some 7 }

/-- A small dictionary mixing nil, target and off-target modes. -/
def wDict : ManifestResponse := [("5", rec3), ("6", recNoMode), ("8", rec7)]

/-- Two overlapping dictionaries for the merge witness. -/
def wDictA : ManifestResponse := [("1", recNoMode), ("2", rec3)]

/-- See `wDictA`. -/
def wDictB : ManifestResponse := [("1", rec3)]

/-- An activity dictionary for the filter/merge interaction witnesses. -/
def wActivity : ManifestResponse := [("7", recNoMode), ("8", rec3)]

/-- The manifest body the concrete HTTP oracle serves. -/
def cexManifestJson : Json :=
  Json.obj [("Response", Json.obj
    [("jsonWorldComponentContentPaths", Json.obj
      [("en", Json.obj
        [("DestinyActivityDefinition", Json.str "/act"),
         ("DestinyClassDefinition", Json.str "/cls"),
         ("DestinyGenderDefinition", Json.str "/gen"),
         ("DestinyRaceDefinition", Json.str "/race")])])])]

/-- The activity dictionary the concrete HTTP oracle's payload decodes
to: a single entity with nil mode. -/
def cexActivity : ManifestResponse := [("7", recNoMode)]

/-- A concrete HTTP oracle: the manifest endpoint serves
`cexManifestJson`, the activity sub-resource serves one entity with no
mode field, and every other URL serves an empty dictionary. -/
def cexHttp : HttpOracle :=
  { get := fun url =>
      if url = baseUrl ++ manifestPath then Except.ok cexManifestJson
      else if url = entityUrl "/act" then Except.ok (Json.obj [("7", Json.obj [])])
      else Except.ok (Json.obj []) }

/-- A store oracle where every operation succeeds. -/
def okStore : StoreOracle := { flushResult := none, setError := fun _ => none }

/-- A store oracle whose flush fails. -/
def badFlushStore : StoreOracle :=
  { flushResult := some "connection refused", setError := fun _ => none }

/-- A store oracle where the `SET` of key "42" fails. -/
def failStore : StoreOracle :=
  { flushResult := none,
    setError := fun k => if k = "42" then some "io error" else none }

/-- An HTTP oracle whose activity payload holds two nil-mode entities
with "a" first.  JSON objects and Go maps are unordered and Go's map
iteration order is randomized, so `cexHttpOrd1` and `cexHttpOrd2` serve
the same remote entity data; they differ only in the order a run ends up
iterating it. -/
def cexHttpOrd1 : HttpOracle :=
  { get := fun url =>
      if url = baseUrl ++ manifestPath then Except.ok cexManifestJson
      else if url = entityUrl "/act" then
        Except.ok (Json.obj [("a", Json.obj []), ("b", Json.obj [])])
      else Except.ok (Json.obj []) }

/-- The same remote entity data as `cexHttpOrd1`, iterated with "b"
first. -/
def cexHttpOrd2 : HttpOracle :=
  { get := fun url =>
      if url = baseUrl ++ manifestPath then Except.ok cexManifestJson
      else if url = entityUrl "/act" then
        Except.ok (Json.obj [("b", Json.obj []), ("a", Json.obj [])])
      else Except.ok (Json.obj []) }

/-- A JSON body with one entity that has no mode and an unknown extra
field. -/
def wBody : Json :=
  Json.obj [("9", Json.obj [("releaseTime", Json.num 5), ("unknownField", Json.str "x")])]

/-- The record `wBody`'s single entry decodes to. -/
def wEntity : ManifestObject :=
  { mode := none, displayProperties := zeroDisplayProperties,
    originalDisplayProperties := zeroDisplayProperties, releaseIcon := "", releaseTime := 5 }

/-- An HTTP oracle serving `wBody` at every URL. -/
def wHttp : HttpOracle := { get := fun _ => Except.ok wBody }

/-! ## Association-list map lemmas -/

theorem dictLookup_mapSet {β : Type} (l : List (String × β)) (k k' : String) (v : β) :
    dictLookup k' (mapSet l k v) = if k = k' then some v else dictLookup k' l := by
  induction l with
  | nil => simp [mapSet, dictLookup]
  | cons kv rest ih =>
    obtain ⟨key, value⟩ := kv
    by_cases h1 : key = k
    · subst h1
      simp only [mapSet, if_pos rfl, dictLookup]
      split_ifs <;> simp_all [dictLookup]
    · simp only [mapSet, if_neg h1, dictLookup, ih]
      split_ifs <;> simp_all

theorem containsKey_cons {β : Type} (key : String) (value : β) (rest : List (String × β))
    (k : String) :
    containsKey ((key, value) :: rest) k = true ↔ key = k ∨ containsKey rest k = true := by
  simp only [containsKey, dictLookup]
  split_ifs with h <;> simp_all

theorem containsKey_iff_mem {β : Type} (m : List (String × β)) (k : String) :
    containsKey m k = true ↔ ∃ v, (k, v) ∈ m := by
  induction m with
  | nil => simp [containsKey, dictLookup]
  | cons kv rest ih =>
    obtain ⟨key, value⟩ := kv
    rw [containsKey_cons, ih]
    constructor
    · rintro (h | ⟨v, hv⟩)
      · exact ⟨value, by simp [h]⟩
      · exact ⟨v, List.mem_cons_of_mem _ hv⟩
    · rintro ⟨v, hv⟩
      rcases List.mem_cons.mp hv with heq | hmem
      · cases heq
        exact Or.inl rfl
      · exact Or.inr ⟨v, hmem⟩

theorem dictLookup_mem {β : Type} {m : List (String × β)} {k : String} {v : β}
    (h : dictLookup k m = some v) : (k, v) ∈ m := by
  induction m with
  | nil => cases h
  | cons kv rest ih =>
    obtain ⟨key, value⟩ := kv
    rw [dictLookup] at h
    split_ifs at h with hk
    · cases h
      subst hk
      exact List.mem_cons_self _ _
    · exact List.mem_cons_of_mem _ (ih h)

theorem mem_dictLookup {β : Type} {m : List (String × β)} {k : String} {v : β}
    (hnd : NodupKeys m) (h : (k, v) ∈ m) : dictLookup k m = some v := by
  induction m with
  | nil => cases h
  | cons kv rest ih =>
    obtain ⟨key, value⟩ := kv
    rw [NodupKeys, keys, List.map_cons, List.nodup_cons] at hnd
    obtain ⟨hnotin, hndrest⟩ := hnd
    rcases List.mem_cons.mp h with heq | hmem
    · cases heq
      simp [dictLookup]
    · have hk : key ≠ k := by
        intro hkk
        subst hkk
        exact hnotin (List.mem_map.mpr ⟨(key, v), hmem, rfl⟩)
      rw [dictLookup, if_neg hk]
      exact ih hndrest hmem

theorem nodupKeys_unique {β : Type} {m : List (String × β)} {k : String} {v w : β}
    (hnd : NodupKeys m) (hv : (k, v) ∈ m) (hw : (k, w) ∈ m) : v = w := by
  have h1 := mem_dictLookup hnd hv
  have h2 := mem_dictLookup hnd hw
  rw [h1] at h2
  exact Option.some.inj h2

theorem containsKey_mapSet {β : Type} (l : List (String × β)) (k k' : String) (v : β) :
    containsKey (mapSet l k v) k' = true ↔ k = k' ∨ containsKey l k' = true := by
  simp only [containsKey, dictLookup_mapSet]
  split_ifs with h <;> simp_all

theorem insertAll_nil {β : Type} (acc : List (String × β)) : insertAll acc [] = acc := rfl

theorem insertAll_cons {β : Type} (acc : List (String × β)) (kv : String × β)
    (rest : List (String × β)) :
    insertAll acc (kv :: rest) = insertAll (mapSet acc kv.1 kv.2) rest := rfl

theorem dictLookup_insertAll_of_not_contains {β : Type} (m : List (String × β))
    (acc : List (String × β)) (k : String) (h : containsKey m k = false) :
    dictLookup k (insertAll acc m) = dictLookup k acc := by
  induction m generalizing acc with
  | nil => rfl
  | cons kv rest ih =>
    obtain ⟨key, value⟩ := kv
    by_cases hk : key = k
    · exfalso
      rw [containsKey, dictLookup, if_pos hk] at h
      simp at h
    · have h2 : containsKey rest k = false := by
        rwa [containsKey, dictLookup, if_neg hk] at h
      rw [insertAll_cons, ih _ h2, dictLookup_mapSet, if_neg hk]

theorem dictLookup_insertAll_of_mem {β : Type} {m : List (String × β)} {k : String} {v : β}
    (hnd : NodupKeys m) (hmem : (k, v) ∈ m) (acc : List (String × β)) :
    dictLookup k (insertAll acc m) = some v := by
  induction m generalizing acc with
  | nil => cases hmem
  | cons kv rest ih =>
    obtain ⟨key, value⟩ := kv
    rw [NodupKeys, keys, List.map_cons, List.nodup_cons] at hnd
    obtain ⟨hnotin, hndrest⟩ := hnd
    rw [insertAll_cons]
    rcases List.mem_cons.mp hmem with heq | hmem2
    · cases heq
      have hrest : containsKey rest k = false := by
        cases hc : containsKey rest k
        · rfl
        · exfalso
          obtain ⟨w, hw⟩ := (containsKey_iff_mem rest k).mp hc
          exact hnotin (List.mem_map.mpr ⟨(k, w), hw, rfl⟩)
      rw [dictLookup_insertAll_of_not_contains _ _ _ hrest, dictLookup_mapSet, if_pos rfl]
    · exact ih hndrest hmem2 _

theorem containsKey_insertAll {β : Type} (acc m : List (String × β)) (k : String) :
    containsKey (insertAll acc m) k = true ↔
      containsKey m k = true ∨ containsKey acc k = true := by
  induction m generalizing acc with
  | nil => simp [insertAll_nil, containsKey, dictLookup]
  | cons kv rest ih =>
    obtain ⟨key, value⟩ := kv
    rw [insertAll_cons, ih, containsKey_cons]
    have hms := containsKey_mapSet acc key k value
    tauto

theorem containsKey_foldl_insertAll {β : Type} (l : List (List (String × β)))
    (acc : List (String × β)) (k : String) :
    containsKey (l.foldl insertAll acc) k = true ↔
      (∃ m, m ∈ l ∧ containsKey m k = true) ∨ containsKey acc k = true := by
  induction l generalizing acc with
  | nil => simp
  | cons m rest ih =>
    rw [List.foldl_cons, ih, containsKey_insertAll]
    constructor
    · rintro (⟨m', hm', hc⟩ | hc | hc)
      · exact Or.inl ⟨m', List.mem_cons_of_mem _ hm', hc⟩
      · exact Or.inl ⟨m, List.mem_cons_self _ _, hc⟩
      · exact Or.inr hc
    · rintro (⟨m', hm', hc⟩ | hc)
      · rcases List.mem_cons.mp hm' with heq | hmem
        · subst heq
          exact Or.inr (Or.inl hc)
        · exact Or.inl ⟨m', hmem, hc⟩
      · exact Or.inr (Or.inr hc)

theorem dictLookup_foldl_insertAll_of_not_contains {β : Type}
    (l : List (List (String × β))) (acc : List (String × β)) (k : String)
    (h : ∀ m, m ∈ l → containsKey m k = false) :
    dictLookup k (l.foldl insertAll acc) = dictLookup k acc := by
  induction l generalizing acc with
  | nil => rfl
  | cons m rest ih =>
    rw [List.foldl_cons, ih _ (fun m' hm' => h m' (List.mem_cons_of_mem _ hm')),
      dictLookup_insertAll_of_not_contains _ _ _ (h m (List.mem_cons_self _ _))]

theorem mem_mapSet {β : Type} {l : List (String × β)} {k : String} {v : β}
    {x : String × β} (h : x ∈ mapSet l k v) : x ∈ l ∨ x = (k, v) := by
  induction l with
  | nil => simpa [mapSet] using h
  | cons kv rest ih =>
    obtain ⟨key, value⟩ := kv
    by_cases hk : key = k
    · rw [mapSet, if_pos hk] at h
      rcases List.mem_cons.mp h with heq | hmem
      · exact Or.inr heq
      · exact Or.inl (List.mem_cons_of_mem _ hmem)
    · rw [mapSet, if_neg hk] at h
      rcases List.mem_cons.mp h with heq | hmem
      · exact Or.inl (by simp [heq])
      · rcases ih hmem with h1 | h1
        · exact Or.inl (List.mem_cons_of_mem _ h1)
        · exact Or.inr h1

theorem mem_insertAll {β : Type} {m acc : List (String × β)} {x : String × β}
    (h : x ∈ insertAll acc m) : x ∈ acc ∨ x ∈ m := by
  induction m generalizing acc with
  | nil => exact Or.inl h
  | cons kv rest ih =>
    rw [insertAll_cons] at h
    rcases ih h with h1 | h1
    · rcases mem_mapSet h1 with h2 | h2
      · exact Or.inl h2
      · exact Or.inr (by simp [h2])
    · exact Or.inr (List.mem_cons_of_mem _ h1)

theorem containsKey_append_single {β : Type} (acc : List (String × β)) (key : String)
    (value : β) (k : String) (hacc : containsKey acc k = false) (hk : key ≠ k) :
    containsKey (acc ++ [(key, value)]) k = false := by
  induction acc with
  | nil => simp [containsKey, dictLookup, hk]
  | cons kv rest ih =>
    obtain ⟨key2, value2⟩ := kv
    by_cases h2 : key2 = k
    · exfalso
      rw [containsKey, dictLookup, if_pos h2] at hacc
      simp at hacc
    · have h3 : containsKey rest k = false := by
        rwa [containsKey, dictLookup, if_neg h2] at hacc
      rw [List.cons_append, containsKey, dictLookup, if_neg h2]
      exact ih h3

theorem mapSet_of_not_contains {β : Type} (l : List (String × β)) (k : String) (v : β)
    (h : containsKey l k = false) : mapSet l k v = l ++ [(k, v)] := by
  induction l with
  | nil => rfl
  | cons kv rest ih =>
    obtain ⟨key, value⟩ := kv
    by_cases hk : key = k
    · exfalso
      rw [containsKey, dictLookup, if_pos hk] at h
      simp at h
    · have h2 : containsKey rest k = false := by
        rwa [containsKey, dictLookup, if_neg hk] at h
      rw [mapSet, if_neg hk, ih h2, List.cons_append]

theorem insertAll_of_disjoint {β : Type} (acc m : List (String × β)) (hnd : NodupKeys m)
    (h : ∀ k, containsKey m k = true → containsKey acc k = false) :
    insertAll acc m = acc ++ m := by
  induction m generalizing acc with
  | nil => simp [insertAll_nil]
  | cons kv rest ih =>
    obtain ⟨key, value⟩ := kv
    rw [NodupKeys, keys, List.map_cons, List.nodup_cons] at hnd
    obtain ⟨hnotin, hndrest⟩ := hnd
    have hkey : containsKey acc key = false :=
      h key ((containsKey_cons key value rest key).mpr (Or.inl rfl))
    rw [insertAll_cons]
    have hstep : mapSet acc key value = acc ++ [(key, value)] :=
      mapSet_of_not_contains acc key value hkey
    have hdisj : ∀ k, containsKey rest k = true →
        containsKey (acc ++ [(key, value)]) k = false := by
      intro k hk
      have hkne : key ≠ k := by
        intro hkk
        subst hkk
        obtain ⟨w, hw⟩ := (containsKey_iff_mem rest key).mp hk
        exact hnotin (List.mem_map.mpr ⟨(key, w), hw, rfl⟩)
      have hacck : containsKey acc k = false :=
        h k ((containsKey_cons key value rest k).mpr (Or.inr hk))
      exact containsKey_append_single acc key value k hacck hkne
    rw [hstep, ih (acc ++ [(key, value)]) hndrest hdisj]
    simp

/-! ## Lemmas about filterActivities -/

theorem filterFold_eq (m : ManifestResponse) : ∀ acc : ManifestResponse,
    m.foldl
      (fun acc kv =>
        if kv.2.mode = none ∨ kv.2.mode ≠ some 3 then acc
        else mapSet acc kv.1 kv.2)
      acc = insertAll acc (m.filter modeIsTarget) := by
  induction m with
  | nil => intro acc; rfl
  | cons kv rest ih =>
    intro acc
    rw [List.foldl_cons, List.filter_cons]
    by_cases hm : kv.2.mode = some 3
    · have hcond : ¬ (kv.2.mode = none ∨ kv.2.mode ≠ some 3) := by simp [hm]
      have hp : modeIsTarget kv = true := by simp [modeIsTarget, hm]
      rw [if_neg hcond, hp, if_pos (by trivial), insertAll_cons]
      exact ih _
    · have hcond : kv.2.mode = none ∨ kv.2.mode ≠ some 3 := Or.inr hm
      have hp : modeIsTarget kv = false := by simp [modeIsTarget, hm]
      rw [if_pos hcond, hp]
      simp only [Bool.false_eq_true, if_false]
      exact ih _

theorem filterActivities_eq_insertAll (m : ManifestResponse) :
    filterActivities m = insertAll [] (m.filter modeIsTarget) :=
  filterFold_eq m []

theorem nodupKeys_filter (m : ManifestResponse) (p : String × ManifestObject → Bool)
    (hnd : NodupKeys m) : NodupKeys (m.filter p) := by
  rw [NodupKeys, keys] at hnd ⊢
  exact List.Nodup.sublist (List.Sublist.map Prod.fst (List.filter_sublist m)) hnd

theorem filterActivities_eq_filter (m : ManifestResponse) (hnd : NodupKeys m) :
    filterActivities m = m.filter modeIsTarget := by
  rw [filterActivities_eq_insertAll]
  rw [insertAll_of_disjoint [] _ (nodupKeys_filter m modeIsTarget hnd) (fun k _ => rfl)]
  simp

/-! ## Lemmas about the run and its trace -/

/-! ## Lemmas about JSON decoding -/

theorem decodeEntries_mem {fields : List (String × Json)} {d : ManifestResponse}
    (h : decodeEntries fields = some d) :
    ∀ k jv, (k, jv) ∈ fields → ∃ v, unmarshalManifestObject jv = some v ∧ (k, v) ∈ d := by
  induction fields generalizing d with
  | nil =>
    intro k jv h2
    cases h2
  | cons kv rest ih =>
    obtain ⟨key, jval⟩ := kv
    intro k jv hmem
    rw [decodeEntries] at h
    cases hu : unmarshalManifestObject jval with
    | none => rw [hu] at h; cases h
    | some v0 =>
      cases hd : decodeEntries rest with
      | none => rw [hu, hd] at h; cases h
      | some tail =>
        rw [hu, hd] at h
        cases h
        rcases List.mem_cons.mp hmem with heq | hrest
        · cases heq
          exact ⟨v0, hu, List.mem_cons_self _ _⟩
        · obtain ⟨v, hv1, hv2⟩ := ih hd k jv hrest
          exact ⟨v, hv1, List.mem_cons_of_mem _ hv2⟩

theorem displayProperties_roundtrip (d : DisplayProperties) :
    unmarshalDisplayProperties (marshalDisplayProperties d) = some d := rfl

/-! ## Claim theorems -/

/-- Claim C1: for every ordered sequence of entity dictionaries passed to
`flattenMaps`, the result contains exactly the union of the input keys,
and for any key the value taken is the one from the dictionary appearing
latest in the argument order among those containing the key; a key
present only in earlier dictionaries keeps the value of the last of
those. -/
theorem flattenMaps_union_last_wins (l : List ManifestResponse) :
    (∀ k, containsKey (flattenMaps l) k = true ↔
      ∃ m, m ∈ l ∧ containsKey m k = true) ∧
    (∀ l1 m l2 k, l = l1 ++ m :: l2 → NodupKeys m → containsKey m k = true →
      (∀ m2, m2 ∈ l2 → containsKey m2 k = false) →
      dictLookup k (flattenMaps l) = dictLookup k m) := by
  constructor
  · intro k
    rw [flattenMaps, containsKey_foldl_insertAll]
    simp [containsKey, dictLookup]
  · intro l1 m l2 k hl hnd hmem hafter
    subst hl
    rw [flattenMaps, List.foldl_append, List.foldl_cons]
    obtain ⟨v, hv⟩ := (containsKey_iff_mem m k).mp hmem
    rw [dictLookup_foldl_insertAll_of_not_contains _ _ _ hafter,
      dictLookup_insertAll_of_mem hnd hv, mem_dictLookup hnd hv]

/-- Witness for C1 at a concrete input: key "1" is present in both
`wDictA` and `wDictB`, and the merge takes `wDictB`'s value (the
dictionary merged last). -/
theorem flattenMaps_union_last_wins_witness :
    dictLookup "1" (flattenMaps [wDictA, wDictB]) = dictLookup "1" wDictB :=
  (flattenMaps_union_last_wins [wDictA, wDictB]).2 [wDictA] wDictB [] "1" rfl
    (by decide) (by decide) (by intro m2 hm2; cases hm2)

/-- Claim C2: `filterActivities` returns a dictionary whose key set is a
subset of the input's; every returned entry has a non-nil mode equal to
the target mode 3 (the constant in the code), and every key of the input
absent from the result has a mode that is nil or different from 3. -/
theorem filterActivities_mode_spec (D : ManifestResponse) :
    (∀ k, containsKey (filterActivities D) k = true → containsKey D k = true) ∧
    (∀ k v, dictLookup k (filterActivities D) = some v →
      v.mode ≠ none ∧ v.mode = some 3) ∧
    (∀ k v, (k, v) ∈ D → containsKey (filterActivities D) k = false →
      v.mode = none ∨ v.mode ≠ some 3) := by
  refine ⟨?_, ?_, ?_⟩
  · intro k hk
    rw [filterActivities_eq_insertAll, containsKey_insertAll] at hk
    rcases hk with hk | hk
    · obtain ⟨v, hv⟩ := (containsKey_iff_mem _ _).mp hk
      exact (containsKey_iff_mem _ _).mpr ⟨v, List.mem_of_mem_filter hv⟩
    · simp [containsKey, dictLookup] at hk
  · intro k v hv
    have hmem := dictLookup_mem hv
    rw [filterActivities_eq_insertAll] at hmem
    rcases mem_insertAll hmem with h1 | h1
    · cases h1
    · have hp := List.of_mem_filter h1
      have h3 : v.mode = some 3 := by
        simpa [modeIsTarget] using hp
      exact ⟨by simp [h3], h3⟩
  · intro k v hvD hnc
    by_cases h3 : v.mode = some 3
    · exfalso
      have hmem : (k, v) ∈ D.filter modeIsTarget :=
        List.mem_filter.mpr ⟨hvD, by simp [modeIsTarget, h3]⟩
      have hk : containsKey (filterActivities D) k = true := by
        rw [filterActivities_eq_insertAll, containsKey_insertAll]
        exact Or.inl ((containsKey_iff_mem _ _).mpr ⟨v, hmem⟩)
      rw [hnc] at hk
      cases hk
    · exact Or.inr h3

/-- Witness for C2 at a concrete input: entry "5" (mode 3) is kept with
a non-nil target mode, and entry "6" is in the input, absent from the
result, and its mode is nil or off-target. -/
theorem filterActivities_mode_spec_witness :
    (rec3.mode ≠ none ∧ rec3.mode = some 3) ∧
    (recNoMode.mode = none ∨ recNoMode.mode ≠ some 3) :=
  ⟨(filterActivities_mode_spec wDict).2.1 "5" rec3 (by decide),
   (filterActivities_mode_spec wDict).2.2 "6" recNoMode (by decide) (by decide)⟩

/-- Claim C10: appending the filtered activity dictionary after the
unfiltered one changes nothing: for every key, the merge of race, class,
gender, activity and filtered-activity has the same binding as the merge
of race, class, gender, activity, so the filter stage has no effect on
the merge result. -/
theorem flatten_filtered_after_unfiltered_noop (R C G A : ManifestResponse)
    (hA : NodupKeys A) : ∀ k,
    dictLookup k (flattenMaps [R, C, G, A, filterActivities A]) =
      dictLookup k (flattenMaps [R, C, G, A]) := by
  intro k
  have h5 : flattenMaps [R, C, G, A, filterActivities A]
      = insertAll (flattenMaps [R, C, G, A]) (filterActivities A) := rfl
  rw [h5, filterActivities_eq_filter A hA]
  cases hk : containsKey (A.filter modeIsTarget) k with
  | false => rw [dictLookup_insertAll_of_not_contains _ _ _ hk]
  | true =>
    obtain ⟨v, hv⟩ := (containsKey_iff_mem _ _).mp hk
    have hvA : (k, v) ∈ A := List.mem_of_mem_filter hv
    rw [dictLookup_insertAll_of_mem (nodupKeys_filter A modeIsTarget hA) hv]
    have h4 : flattenMaps [R, C, G, A] = insertAll (flattenMaps [R, C, G]) A := rfl
    rw [h4, dictLookup_insertAll_of_mem hA hvA]

/-- Witness for C10 at a concrete input: with a two-entry activity
dictionary (one nil mode, one mode 3), the two merges agree on the key
whose entry survives the filter. -/
theorem flatten_filtered_after_unfiltered_noop_witness :
    dictLookup "8" (flattenMaps [[], [], [], wActivity, filterActivities wActivity]) =
      dictLookup "8" (flattenMaps [[], [], [], wActivity]) :=
  flatten_filtered_after_unfiltered_noop [] [] [] wActivity (by decide) "8"

/-- Claim C3 counterexample: at a concrete run where race, class and
gender are empty and the activity dictionary has one entity with nil
mode, the dictionary `main` passes to the cache writer contains that
entity, but the merge of the four dictionaries race, class, gender,
filtered-activity does not — so the merged data is not the four-way
merge the claim states, and the unfiltered activity dictionary does
participate. -/
theorem pipeline_merge_four_counterexample :
    pipelineData cexHttp = Except.ok [("7", recNoMode)] ∧
    ¬ ([("7", recNoMode)] : ManifestResponse) =
      flattenMaps [[], [], [], filterActivities cexActivity] := by
  constructor
  · rfl
  · decide

/-- Claim C3 (amended): in every successful run, the dictionary passed
to the cache writer is the merge of five dictionaries in the order race,
class, gender, unfiltered activity, filtered activity; in particular the
unfiltered activity dictionary does participate, and every key of it
appears in the merge. -/
theorem pipeline_merges_five (h : HttpOracle) (m : Manifest)
    (race cls gender activity : ManifestResponse)
    (hm : fetchManifest h = Except.ok m)
    (hr : fetchManifestEntities h (entityUrl m.DestinyRaceDefinition) = Except.ok race)
    (hc : fetchManifestEntities h (entityUrl m.DestinyClassDefinition) = Except.ok cls)
    (hg : fetchManifestEntities h (entityUrl m.DestinyGenderDefinition) = Except.ok gender)
    (ha : fetchManifestEntities h (entityUrl m.DestinyActivityDefinition) = Except.ok activity) :
    pipelineData h =
      Except.ok (flattenMaps [race, cls, gender, activity, filterActivities activity]) ∧
    ∀ k, containsKey activity k = true →
      containsKey (flattenMaps [race, cls, gender, activity, filterActivities activity]) k
        = true := by
  constructor
  · simp only [pipelineData, hm, hr, hc, hg, ha]
  · intro k hk
    rw [flattenMaps, containsKey_foldl_insertAll]
    exact Or.inl ⟨activity, by simp, hk⟩

/-- Witness for the amended C3 at a concrete run. -/
theorem pipeline_merges_five_witness :
    pipelineData cexHttp =
      Except.ok (flattenMaps [[], [], [], cexActivity, filterActivities cexActivity]) ∧
    ∀ k, containsKey cexActivity k = true →
      containsKey (flattenMaps [[], [], [], cexActivity, filterActivities cexActivity]) k
        = true :=
  pipeline_merges_five cexHttp
    { DestinyActivityDefinition := "/act", DestinyClassDefinition := "/cls",
      DestinyGenderDefinition := "/gen", DestinyRaceDefinition := "/race" }
    [] [] [] cexActivity rfl rfl rfl rfl rfl

/-- Claim C4: in every run, any attempted per-entry SET is preceded in
the trace by the flush, and the flush succeeded; if the flush fails, the
run aborts with the cache error and the trace holds the flush attempt
only — zero writes. -/
theorem no_set_before_successful_flush (h : HttpOracle) (s : StoreOracle) :
    (∀ (i : Nat) (k : String) (v : ManifestObject),
      (runMain h s).1[i]? = some (CacheOp.set k v) →
      s.flushResult = none ∧
        ∃ j, j < i ∧ (runMain h s).1[j]? = some CacheOp.flushAll) ∧
    (∀ e, s.flushResult = some e →
      runMain h s = ([CacheOp.flushAll],
        some (RunError.flushFailed ("Failed to flush the Redis cache: " ++ e)))) := by
  constructor
  · intro i k v hi
    cases hf : s.flushResult with
    | some e =>
      exfalso
      have hr : (runMain h s).1 = [CacheOp.flushAll] := by
        rw [runMain, clearCache, hf]
      rw [hr] at hi
      match i, hi with
      | 0, hi => simp at hi
      | n + 1, hi => simp at hi
    | none =>
      have hcc : clearCache s = none := by rw [clearCache, hf]
      have hr : ∃ rest, (runMain h s).1 = CacheOp.flushAll :: rest := by
        rw [runMain, hcc]
        cases pipelineData h with
        | error e => exact ⟨[], rfl⟩
        | ok d => exact ⟨(saveToRedis s d).1, rfl⟩
      obtain ⟨rest, hr⟩ := hr
      refine ⟨rfl, ?_⟩
      match i, hi with
      | 0, hi => rw [hr] at hi; simp at hi
      | n + 1, hi => exact ⟨0, Nat.succ_pos n, by rw [hr]; simp⟩
  · intro e he
    rw [runMain, clearCache, he]

/-- Witness for C4 at a concrete run: the SET at trace position 1 is
preceded by the successful flush at position 0. -/
theorem no_set_before_successful_flush_witness :
    okStore.flushResult = none ∧
    ∃ j, j < 1 ∧ (runMain cexHttp okStore).1[j]? = some CacheOp.flushAll :=
  (no_set_before_successful_flush cexHttp okStore).1 1 "7" recNoMode rfl

/-- Claim C9: the code defeats the claimed idempotency.  In the final
revision's writer the checked `err` is the never-nil `*redis.StatusCmd`
returned by `client.Set`, so a run over a nonempty merged dictionary
always panics right after its first `SET`, even though the store
reported no error for it.  The single entry left in the cache is the
first-iterated one, which is not determined by the data map: two runs
observing the same manifest and the same remote entity data (the merged
dictionaries below are equal as maps, differing only in iteration
order) leave different final cache contents. -/
theorem run_panics_on_first_write :
    pipelineData cexHttpOrd1 = Except.ok [("a", recNoMode), ("b", recNoMode)] ∧
    pipelineData cexHttpOrd2 = Except.ok [("b", recNoMode), ("a", recNoMode)] ∧
    (∀ k, dictLookup k [("a", recNoMode), ("b", recNoMode)] =
      dictLookup k [("b", recNoMode), ("a", recNoMode)]) ∧
    okStore.setError "a" = none ∧
    (runMain cexHttpOrd1 okStore).2 = some (RunError.setFailed "a" recNoMode) ∧
    applyTrace okStore [] (runMain cexHttpOrd1 okStore).1 ≠
      applyTrace okStore [] (runMain cexHttpOrd2 okStore).1 := by
  refine ⟨rfl, rfl, ?_, rfl, rfl, by decide⟩
  intro k
  simp only [dictLookup]
  split_ifs <;> rfl

/-- Claim C5 counterexample: in the revision whose cache writer
marshals values (src lines 265-279), a store `SET` failure is not
surfaced: with a store that fails on key "42", `RevB.saveToRedis` still
attempts both keys and reports success — no error naming the key, no
abort. -/
theorem revB_set_failure_silently_discarded :
    failStore.setError "42" = some "io error" ∧
    (RevB.saveToRedis failStore [("42", recNoMode), ("43", rec3)]).2 = none ∧
    (RevB.saveToRedis failStore [("42", recNoMode), ("43", rec3)]).1.length = 2 :=
  ⟨rfl, rfl, rfl⟩

/-- Claim C5 (amended): in the revision at src lines 265-279 the cache
writer never surfaces a store write failure: for every store behaviour
and every dictionary it attempts a `SET` of the marshalled value for
every key, in order, and reports success; only a JSON marshal failure
would surface an error naming the key, and marshalling of entity
records is total. -/
theorem revB_saveToRedis_total_success (s : StoreOracle) (data : ManifestResponse) :
    RevB.saveToRedis s data =
      (data.map (fun kv => CacheOp.set kv.1 (marshalManifestObject kv.2)), none) := by
  induction data with
  | nil => rfl
  | cons kv rest ih =>
    obtain ⟨key, value⟩ := kv
    rw [List.map_cons, RevB.saveToRedis, ih]

/-- Claim C6 counterexample: with the final revision's `baseUrl` (which
ends in a slash), the URL built for a sub-resource path "/foo" is not
the single-slash join, and it contains a double slash after the scheme. -/
theorem entityUrl_double_slash_counterexample :
    entityUrl "/foo" ≠ "https://www.bungie.net/Platform/foo" ∧
    List.IsInfix ['/', '/'] ((entityUrl "/foo").drop 8).data := by
  constructor
  · decide
  · decide

/-- Claim C6 (amended): the fetch URL is the verbatim concatenation
`baseUrl ++ path`; since `baseUrl` ends with a slash and every
sub-resource path begins with one, the join point carries a double
slash. -/
theorem entityUrl_concat_double_slash (rest : String) :
    entityUrl ("/" ++ rest) = "https://www.bungie.net/Platform/" ++ ("/" ++ rest) ∧
    List.IsInfix ['/', '/'] (entityUrl ("/" ++ rest)).data := by
  constructor
  · rfl
  · have h1 : (entityUrl ("/" ++ rest)).data =
        "https://www.bungie.net/Platform".data ++ ['/', '/'] ++ rest.data := by
      show (baseUrl ++ ("/" ++ rest)).data = _
      rw [String.data_append, String.data_append]
      have hb : baseUrl.data = "https://www.bungie.net/Platform".data ++ ['/'] := by decide
      have hs : "/".data = ['/'] := by decide
      rw [hb, hs]
      simp
    exact ⟨"https://www.bungie.net/Platform".data, rest.data, h1.symm⟩

/-- Claim C7: every entry of a JSON payload successfully decoded by
`fetchManifestEntities` appears in the returned dictionary — the result
is exactly the decoded payload, entries with nil or absent mode
included; no filtering happens at the fetch stage. -/
theorem fetchManifestEntities_retains_all (h : HttpOracle) (url : String)
    (fields : List (String × Json)) (d : ManifestResponse)
    (hget : h.get url = Except.ok (Json.obj fields))
    (hdec : decodeEntries fields = some d) :
    fetchManifestEntities h url = Except.ok d ∧
    ∀ k jv, (k, jv) ∈ fields →
      ∃ v, unmarshalManifestObject jv = some v ∧ (k, v) ∈ d := by
  constructor
  · simp only [fetchManifestEntities, hget, unmarshalResponse, hdec]
  · exact decodeEntries_mem hdec

/-- Witness for C7 at a concrete payload: the single entity has no mode
field (nil mode) and an unknown extra field, and is still returned. -/
theorem fetchManifestEntities_retains_all_witness :
    fetchManifestEntities wHttp "u" = Except.ok [("9", wEntity)] ∧
    ∀ k jv,
      (k, jv) ∈ [("9", Json.obj [("releaseTime", Json.num 5), ("unknownField", Json.str "x")])] →
      ∃ v, unmarshalManifestObject jv = some v ∧ (k, v) ∈ [("9", wEntity)] :=
  fetchManifestEntities_retains_all wHttp "u"
    [("9", Json.obj [("releaseTime", Json.num 5), ("unknownField", Json.str "x")])]
    [("9", wEntity)] rfl rfl

/-- Claim C8: serializing an entity record to its cache payload and
deserializing it back yields a record equal to the original in all
documented fields (mode, displayProperties, originalDisplayProperties,
releaseIcon, releaseTime). -/
theorem manifestObject_roundtrip (r : ManifestObject) :
    unmarshalManifestObject (marshalManifestObject r) = some r := by
  obtain ⟨mode, dp, odp, ri, rt⟩ := r
  cases mode <;> rfl
